import Mathlib

/-!
Verification of the PantauPangan price backend against its specification.

The development shallowly embeds the price-reconciliation pipeline:

* `PantauPangan.PriceSync` models `services/priceSync.js`
  (`savePricesFromInformasi`, the retrying fetch helpers);
* `PantauPangan.BPN` models `services/bpnApiService.js`
  (`syncPrices`, `fetchCurrentPrices`);
* `PantauPangan.Ovr` models `controllers/overrideController.js`
  (`createOverride`, `updateOverrideStatus`, `deleteOverride`);
* `PantauPangan.Stats` models the top-movers computation of
  `controllers/priceController.js` (`getPriceStatistics`).

Database tables are lists of row records, dates are abstract day numbers,
and JavaScript numbers are rational numbers.  Sequelize operations are
modelled explicitly: `findOne` is `List.find?`, `findOrCreate` is a find
followed by a conditional append, and an instance `update` replaces the
first matching row.
-/

namespace PantauPangan

/-- JavaScript truthiness for an optional numeric id: `null`, `undefined`
and `0` are falsy (`if (!item.id) continue`). -/
def truthyNat : Option Nat → Bool
  | none => false
  | some n => n != 0

/-- Model of `Math.abs` on exact rationals, written so that it evaluates by kernel
reduction. -/
def jsAbs (q : Rat) : Rat := if q < 0 then -q else q

/-- Price source tag of a `Price` row: `'api'` or `'manual'`. -/
inductive Source
  | api
  | manual
deriving DecidableEq

/-- A local commodity record (table `commodities`): internal primary key
`id` plus the upstream `external_id` used to match API snapshots. -/
structure Commodity where
  id : Nat
  external_id : Nat
  name : String
deriving DecidableEq

/-- One commodity snapshot from the external price API
(`{id, name, satuan, today, yesterday, background}`); only the fields the
reconciliation code reads are kept.  `none` models a missing/`null` field. -/
structure Snapshot where
  id : Option Nat
  name : String
  today : Option Rat
  yesterday : Option Rat
deriving DecidableEq

/-- A `Price` table row: commodity reference, calendar date, optional
region, source tag, price level, decimal price and the manual-override
flag. -/
structure PriceRow where
  commodity_id : Nat
  date : Nat
  region_id : Option Nat
  source : Source
  level : String
  price : Rat
  is_override : Bool
deriving DecidableEq

/-- Replace the first element satisfying `p` by its image under `f`,
leaving everything else in place.  This is how a Sequelize
`instance.update(...)` after a `findOne`/`findOrCreate` acts on the
table. -/
def updateFirst (p : α → Bool) (f : α → α) : List α → List α
  | [] => []
  | a :: l => if p a then f a :: l else a :: updateFirst p f l

namespace PriceSync

/-- Fixed context of one `savePricesFromInformasi(apiData, regionId, levelHarga)`
call: the commodity registry, the run date (`new Date()` as `YYYY-MM-DD`),
the `regionId` argument and the `levelHarga` argument. -/
structure SyncCfg where
  commodities : List Commodity
  today : Nat
  regionId : Option Nat
  level : String

/-- What one loop iteration of `savePricesFromInformasi` did to the
`prices` table. -/
inductive SyncAction
  | skipped
  | createdRow
  | updatedRow
  | unchangedRow
deriving DecidableEq

/-- The manual-override guard of `savePricesFromInformasi`:
`Price.findOne({commodity_id, date: today, region_id: regionId, is_override: true})`.
Note it does not filter on `source` or `level`. -/
def overrideKey (c d : Nat) (r : Option Nat) (row : PriceRow) : Bool :=
  row.commodity_id == c && row.date == d && row.region_id == r && row.is_override

/-- The `findOrCreate` key of `savePricesFromInformasi`:
`{commodity_id, date: today, region_id: regionId, source: 'api', level: levelHarga}`. -/
def apiKey (c d : Nat) (r : Option Nat) (lv : String) (row : PriceRow) : Bool :=
  row.commodity_id == c && row.date == d && row.region_id == r &&
    row.source == Source.api && row.level == lv

/-- One iteration of the `for (const item of apiData)` loop in
`savePricesFromInformasi` (services/priceSync.js):
skip on falsy `item.id` or `null`/`undefined` `item.today` (an explicit `0`
passes the guard), skip if the commodity is unknown, skip if an
override-flagged row exists for (commodity, today, regionId), otherwise
`findOrCreate` on the api key with default price `item.today` and update
the price in place when it differs (`price.price != item.today`). -/
def processInfoCore (cfg : SyncCfg) (rows : List PriceRow) (item : Snapshot) :
    List PriceRow × SyncAction :=
  match item.id, item.today with
  | some extId, some todayPrice =>
    if extId == 0 then (rows, .skipped)
    else
      match cfg.commodities.find? (fun c => c.external_id == extId) with
      | none => (rows, .skipped)
      | some commodity =>
        if rows.any (overrideKey commodity.id cfg.today cfg.regionId) then
          (rows, .skipped)
        else
          match rows.find? (apiKey commodity.id cfg.today cfg.regionId cfg.level) with
          | none =>
            (rows ++ [⟨commodity.id, cfg.today, cfg.regionId, .api, cfg.level,
               todayPrice, false⟩], .createdRow)
          | some row =>
            if row.price = todayPrice then (rows, .unchangedRow)
            else
              (updateFirst (apiKey commodity.id cfg.today cfg.regionId cfg.level)
                 (fun r => { r with price := todayPrice }) rows, .updatedRow)
  | _, _ => (rows, .skipped)

/-- Accumulated result of a `savePricesFromInformasi` run: the `prices`
table, the number of in-place price updates performed, and the length of
the returned `savedPrices` array. -/
structure SyncResult where
  rows : List PriceRow
  updates : Nat
  saved : Nat
deriving DecidableEq

/-- One loop step at the level of the accumulated result. -/
def step (cfg : SyncCfg) (st : SyncResult) (item : Snapshot) : SyncResult :=
  let r := processInfoCore cfg st.rows item
  { rows := r.1
    updates := st.updates + (if r.2 = .updatedRow then 1 else 0)
    saved := st.saved + (if r.2 = .skipped then 0 else 1) }

/-- The function `savePricesFromInformasi(apiData, regionId, levelHarga)` from
services/priceSync.js, as a transformer of the `prices` table. -/
def savePricesFromInformasi (cfg : SyncCfg) (items : List Snapshot)
    (rows : List PriceRow) : SyncResult :=
  items.foldl (step cfg) ⟨rows, 0, 0⟩

/-- The commodity that `savePricesFromInformasi` resolves for a snapshot:
`Commodity.findOne({where: {external_id: item.id}})`, guarded by the
truthiness of `item.id`. -/
def resolveCommodity (cfg : SyncCfg) (item : Snapshot) : Option Commodity :=
  match item.id with
  | some extId =>
    if extId == 0 then none else cfg.commodities.find? (fun c => c.external_id == extId)
  | none => none

/-- The full uniqueness key of a price row:
(commodity, date, region, source, level). -/
def priceKey (row : PriceRow) : Nat × Nat × Option Nat × Source × String :=
  (row.commodity_id, row.date, row.region_id, row.source, row.level)

/-- A snapshot is settled with respect to a price table: it is skipped
(no today value, unresolved commodity, or blocked by an override row), or
the table already holds its value at the api key — so processing it again
writes nothing. -/
def Stable (cfg : SyncCfg) (rows : List PriceRow) (item : Snapshot) : Prop :=
  item.today = none
  ∨ resolveCommodity cfg item = none
  ∨ ∃ c, resolveCommodity cfg item = some c ∧
      (rows.any (overrideKey c.id cfg.today cfg.regionId) = true
       ∨ ∃ t, item.today = some t ∧
           ∃ row, rows.find? (apiKey c.id cfg.today cfg.regionId cfg.level) = some row
             ∧ row.price = t)

end PriceSync

namespace BPN

/-- Fixed context of one `syncPrices(apiData, levelHarga)` call on
services/bpnApiService.js: the commodity registry, the run date and the
`levelHarga` argument. -/
structure BpnCfg where
  commodities : List Commodity
  today : Nat
  level : String

/-- Accumulated result of a `syncPrices` run: the `prices` table, the
number of in-place price updates, and the length of the returned
`syncedPrices` array. -/
structure BpnResult where
  rows : List PriceRow
  updates : Nat
  synced : Nat
deriving DecidableEq

/-- Positive-value filter used by `syncPrices` when choosing a price
field: the field must be non-null and `> 0`. -/
def posOrNone : Option Rat → Option Rat
  | some v => if 0 < v then some v else none
  | none => none

/-- The effective price `syncPrices` selects for a snapshot: `item.today`
when present and `> 0`, else `item.yesterday` when present and `> 0`,
else none (the snapshot is skipped). -/
def effectivePrice (item : Snapshot) : Option Rat :=
  (posOrNone item.today).or (posOrNone item.yesterday)

/-- The manual-override guard of `syncPrices`:
`Price.findOne({commodity_id, date: today, is_override: true})` — note no
region or level filter. -/
def overrideKeyBpn (c d : Nat) (row : PriceRow) : Bool :=
  row.commodity_id == c && row.date == d && row.is_override

/-- The `findOrCreate` key of `syncPrices`:
`{commodity_id, date: today, source: 'api', level: levelHarga}` — note no
region filter; the defaults set `region_id: null`. -/
def apiKeyBpn (c d : Nat) (lv : String) (row : PriceRow) : Bool :=
  row.commodity_id == c && row.date == d && row.source == Source.api && row.level == lv

/-- One iteration of the `for (const item of apiData)` loop in
`syncPrices` (services/bpnApiService.js): skip on falsy id or empty name;
select the effective price (`today` if `> 0` else `yesterday` if `> 0`,
else skip); skip prices outside the 100–1,000,000 plausibility band; skip
unknown commodities; skip when an override-flagged row exists for
(commodity, today); otherwise `findOrCreate` on the api key and update in
place when `Math.abs(priceRecord.price - price) > 0.01`. -/
def processBpn (cfg : BpnCfg) (st : BpnResult) (item : Snapshot) : BpnResult :=
  match item.id with
  | none => st
  | some extId =>
    if extId == 0 || item.name == "" then st
    else
      match effectivePrice item with
      | none => st
      | some price =>
        if price < 100 || 1000000 < price then st
        else
          match cfg.commodities.find? (fun c => c.external_id == extId) with
          | none => st
          | some commodity =>
            if st.rows.any (overrideKeyBpn commodity.id cfg.today) then st
            else
              match st.rows.find? (apiKeyBpn commodity.id cfg.today cfg.level) with
              | none =>
                { rows := st.rows ++ [⟨commodity.id, cfg.today, none, .api, cfg.level,
                    price, false⟩]
                  updates := st.updates
                  synced := st.synced + 1 }
              | some row =>
                if 1 / 100 < jsAbs (row.price - price) then
                  { rows := updateFirst (apiKeyBpn commodity.id cfg.today cfg.level)
                      (fun r => { r with price := price }) st.rows
                    updates := st.updates + 1
                    synced := st.synced + 1 }
                else { st with synced := st.synced + 1 }

/-- The method `syncPrices(apiData, levelHarga)` from services/bpnApiService.js, as a
transformer of the `prices` table. -/
def syncPrices (cfg : BpnCfg) (items : List Snapshot) (rows : List PriceRow) : BpnResult :=
  items.foldl (processBpn cfg) ⟨rows, 0, 0⟩

end BPN

namespace Ovr

/-- Status of a `PriceOverride` row. -/
inductive OvStatus
  | pending
  | approved
  | rejected
deriving DecidableEq

/-- A `Price` table row as seen by controllers/overrideController.js; the
row has a primary key `id` because the controller addresses it through
the override's `price_id` foreign key. -/
structure PriceRec where
  id : Nat
  commodity_id : Nat
  date : Nat
  region_id : Option Nat
  price : Rat
  source : Source
  is_override : Bool
deriving DecidableEq

/-- A `PriceOverride` table row (the fields the controller reads and
writes). -/
structure OverrideRec where
  id : Nat
  price_id : Nat
  original_price : Rat
  override_price : Rat
  created_by : Nat
  approved_by : Option Nat
  status : OvStatus
deriving DecidableEq

/-- An `AuditLog` row; of the JSON `old_values`/`new_values` snapshots
only the `price` field (the one the override path writes) is modelled. -/
structure AuditEntry where
  user_id : Option Nat
  action : String
  entity_type : String
  entity_id : Nat
  old_price : Option Rat
  new_price : Option Rat
deriving DecidableEq

/-- The requesting or approving user (`req.user`). -/
structure UserRec where
  id : Nat
  role : String
deriving DecidableEq

/-- Database state touched by the override controller.  `commodities`
keeps only the primary keys (the controller uses `Commodity.findByPk`
purely as an existence check).  `nextOverrideId` models the
auto-increment key for `PriceOverride.create`. -/
structure OvState where
  commodities : List Nat
  prices : List PriceRec
  overrides : List OverrideRec
  audit : List AuditEntry
  nextOverrideId : Nat
deriving DecidableEq

/-- Result of `createOverride`. -/
inductive CreateResp
  | commodityNotFound
  | noCurrentPrice
  | created (ov : OverrideRec)
deriving DecidableEq

/-- Result of `updateOverrideStatus`. -/
inductive UpdResp
  | invalidStatus
  | notFound
  | alreadyProcessed
  | updated (ov : OverrideRec)
deriving DecidableEq

/-- Result of `deleteOverride`. -/
inductive DelResp
  | notFound
  | deleted
deriving DecidableEq

/-- JavaScript `region_id || null`: `undefined`, `null` and `0` collapse
to `null`. -/
def jsOrNull : Option Nat → Option Nat
  | some r => if r = 0 then none else some r
  | none => none

/-- The >50% test of `createOverride`, with JavaScript division
semantics: `diffPercentage = Math.abs(override - current) / current * 100`.
When `current` is `0` and the requested price is nonzero the quotient is
`Infinity`, which compares greater than 50; when both are `0` it is
`NaN`, and `NaN > 50` is false. -/
def jsDeltaGtFifty (requested current : Rat) : Bool :=
  if current = 0 then requested != 0
  else decide (jsAbs (requested - current) / current * 100 > 50)

/-- The `findOne` predicate `createOverride` uses to locate the current
price: `{commodity_id, date, region_id: region_id || null}`. -/
def currentPriceKey (cid d : Nat) (rid : Option Nat) (p : PriceRec) : Bool :=
  p.commodity_id == cid && p.date == d && p.region_id == rid

/-- The handler `createOverride` from controllers/overrideController.js.
404 when the commodity or a current price row is missing; computes the
price delta; `pending` (no approver) when the delta exceeds 50% and the
requester is not an admin, otherwise auto-`approved`; an approved
override immediately updates the price row (price, source manual,
override flag) and appends an audit entry.  Sequelize detail kept by the
model: `currentPrice.update(...)` mutates the in-memory instance, so the
audit entry's `old_values.price` reads the already-updated price. -/
def createOverride (st : OvState) (commodity_id date : Nat) (override_price : Rat)
    (region_id : Option Nat) (user : UserRec) : OvState × CreateResp :=
  if ¬ st.commodities.contains commodity_id then (st, .commodityNotFound)
  else
    let rid := jsOrNull region_id
    match st.prices.find? (currentPriceKey commodity_id date rid) with
    | none => (st, .noCurrentPrice)
    | some currentPrice =>
      let pend := jsDeltaGtFifty override_price currentPrice.price && !(user.role == "admin")
      let status : OvStatus := if pend then .pending else .approved
      let approved_by : Option Nat := if pend then none else some user.id
      let ov : OverrideRec :=
        ⟨st.nextOverrideId, currentPrice.id, currentPrice.price, override_price,
          user.id, approved_by, status⟩
      if status = .approved then
        let updatedInstance : PriceRec :=
          { currentPrice with price := override_price, source := .manual, is_override := true }
        let entry : AuditEntry :=
          ⟨some user.id, "price_override", "price", currentPrice.id,
            some updatedInstance.price, some override_price⟩
        ({ st with
            prices := updateFirst (currentPriceKey commodity_id date rid)
              (fun p => { p with price := override_price, source := Source.manual, is_override := true }) st.prices
            overrides := st.overrides ++ [ov]
            audit := st.audit ++ [entry]
            nextOverrideId := st.nextOverrideId + 1 }, .created ov)
      else
        ({ st with
            overrides := st.overrides ++ [ov]
            nextOverrideId := st.nextOverrideId + 1 }, .created ov)

/-- The handler `updateOverrideStatus` from controllers/overrideController.js
(decide): 400 unless the requested status is approved/rejected, 404 when
the override is missing, 400 when it is no longer pending; otherwise
stores the decision and approver, applies the price change when
approved, and appends an audit entry. -/
def updateOverrideStatus (st : OvState) (ovId : Nat) (statusParam : String)
    (user : UserRec) : OvState × UpdResp :=
  if ¬ (statusParam == "approved" || statusParam == "rejected") then (st, .invalidStatus)
  else
    match st.overrides.find? (fun o => o.id == ovId) with
    | none => (st, .notFound)
    | some ov =>
      if ov.status ≠ .pending then (st, .alreadyProcessed)
      else
        let newStatus : OvStatus := if statusParam == "approved" then .approved else .rejected
        let ovNew : OverrideRec := { ov with status := newStatus, approved_by := some user.id }
        let overridesNew := updateFirst (fun o => o.id == ovId)
          (fun o => { o with status := newStatus, approved_by := some user.id }) st.overrides
        let pricesNew :=
          if newStatus = .approved then
            updateFirst (fun p => p.id == ov.price_id)
              (fun p => { p with price := ov.override_price, source := Source.manual, is_override := true }) st.prices
          else st.prices
        let entry : AuditEntry :=
          ⟨some user.id, "override_status", "price_override", ov.id, none, none⟩
        ({ st with overrides := overridesNew, prices := pricesNew, audit := st.audit ++ [entry] }, .updated ovNew)

/-- The handler `deleteOverride` from controllers/overrideController.js: 404 when the
override is missing; when the override was approved, reverts the price
row to the override's `original_price` with source `api` and the
override flag cleared; appends an audit entry and removes the override
row. -/
def deleteOverride (st : OvState) (ovId : Nat) (user : UserRec) : OvState × DelResp :=
  match st.overrides.find? (fun o => o.id == ovId) with
  | none => (st, .notFound)
  | some ov =>
    let pricesNew :=
      if ov.status = .approved then
        updateFirst (fun p => p.id == ov.price_id)
          (fun p => { p with price := ov.original_price, source := Source.api, is_override := false }) st.prices
      else st.prices
    let entry : AuditEntry :=
      ⟨some user.id, "override_deleted", "price_override", ov.id,
        some ov.original_price, none⟩
    ({ st with prices := pricesNew, overrides := st.overrides.filter (fun o => ¬ (o.id == ovId)), audit := st.audit ++ [entry] }, .deleted)

end Ovr

namespace Stats

/-- One entry of the `top_movers` array built by `getPriceStatistics`
(controllers/priceController.js). -/
structure Mover where
  id : Nat
  start_price : Rat
  end_price : Rat
  change_percentage : Rat
deriving DecidableEq

/-- Model of `Number.prototype.toFixed(2)` followed by `parseFloat`, on exact
rationals: round to the nearest hundredth. -/
def toFixed2 (q : Rat) : Rat := (round (q * 100) : Int) / 100

/-- The value `((endPrice - startPrice) / startPrice * 100).toFixed(2)` then
`parseFloat`. -/
def changePercent (startPrice endPrice : Rat) : Rat :=
  toFixed2 ((endPrice - startPrice) / startPrice * 100)

/-- Building `firstPriceMap`/`lastPriceMap`: a `forEach` writing
`map[commodity_id] = price`, so a later row for the same commodity
overwrites the earlier one. -/
def upsert : List (Nat × Rat) → Nat × Rat → List (Nat × Rat)
  | [], e => [e]
  | (k, v) :: rest, (k2, v2) =>
    if k = k2 then (k, v2) :: rest else (k, v) :: upsert rest (k2, v2)

/-- Price map from a list of (commodity, price) rows. -/
def buildPriceMap (rows : List (Nat × Rat)) : List (Nat × Rat) :=
  rows.foldl upsert []

/-- Sort order used by the `topMovers.sort` comparator
`(a, b) => Math.abs(b.change_percentage) - Math.abs(a.change_percentage)`:
descending absolute recorded change. -/
def moverRel (a b : Mover) : Prop :=
  jsAbs b.change_percentage ≤ jsAbs a.change_percentage

instance : DecidableRel moverRel := fun a b =>
  inferInstanceAs (Decidable (jsAbs b.change_percentage ≤ jsAbs a.change_percentage))

instance : IsTotal Mover moverRel :=
  ⟨fun a b => le_total (jsAbs b.change_percentage) (jsAbs a.change_percentage)⟩

instance : IsTrans Mover moverRel :=
  ⟨fun _ _ _ hab hbc => le_trans hbc hab⟩

/-- The top-movers computation of `getPriceStatistics`: for each
commodity present in the last-day map and also in the first-day map,
record start/end prices and the rounded percentage change, sort by
descending absolute change and keep the first 10. -/
def computeTopMovers (firstMap lastMap : List (Nat × Rat)) : List Mover :=
  let movers := lastMap.filterMap fun ce =>
    match firstMap.find? (fun fe => fe.1 == ce.1) with
    | some fe => some ⟨ce.1, fe.2, ce.2, changePercent fe.2 ce.2⟩
    | none => none
  (List.insertionSort moverRel movers).take 10

/-- The statistic `topMovers` over raw first-day and last-day price rows. -/
def topMovers (firstRows lastRows : List (Nat × Rat)) : List Mover :=
  computeTopMovers (buildPriceMap firstRows) (buildPriceMap lastRows)

end Stats

namespace Fetch

/-- Observable outcome of a fetch helper: the returned value or thrown
error, the number of HTTP attempts made, and the list of waits (in
milliseconds) inserted between attempts. -/
structure FetchOutcome (α : Type) where
  result : Except String α
  attempts : Nat
  waits : List Nat

/-- The loop of `retryRequest(fn, retries, delay)` in
services/priceSync.js, recursing on the number of attempts left: the
last attempt returns or rethrows directly; an earlier failed attempt
waits `delay` ms and retries with the delay doubled. -/
def retryAux (fn : Nat → Except String α) : Nat → Nat → Nat → FetchOutcome α
  | _, 0, _ => ⟨.error "no attempts", 0, []⟩
  | i, 1, _ => ⟨fn i, 1, []⟩
  | i, n + 2, delay =>
    match fn i with
    | .ok a => ⟨.ok a, 1, []⟩
    | .error _ =>
      let rest := retryAux fn (i + 1) (n + 1) (delay * 2)
      ⟨rest.result, rest.attempts + 1, delay :: rest.waits⟩

/-- The wrapper `retryRequest(fn, retries = 3, delay = 2000)` from
services/priceSync.js; `fn i` is the outcome of the `i`-th underlying
HTTP attempt. -/
def retryRequest (fn : Nat → Except String α) (retries : Nat := 3)
    (delay : Nat := 2000) : FetchOutcome α :=
  retryAux fn 0 retries delay

/-- Response envelope of the external price API. -/
structure InfoEnvelope where
  status : String
  message : String
  data : List Snapshot
deriving DecidableEq

/-- One attempt inside `fetchHargaInformasi`: a network-level failure
(`none`) throws, and a response whose `status` is not `'success'` also
throws (`API returned error: ...`), so it counts as a failed attempt. -/
def infoAttempt (responses : Nat → Option InfoEnvelope) (i : Nat) :
    Except String InfoEnvelope :=
  match responses i with
  | none => .error "request failed"
  | some env =>
    if env.status == "success" then .ok env
    else .error ("API returned error: " ++ env.message)

/-- The client `fetchHargaInformasi` from services/priceSync.js: the envelope check
wrapped in `retryRequest` with the default budget of 3 attempts starting
at a 2000 ms delay. -/
def fetchHargaInformasi (responses : Nat → Option InfoEnvelope) :
    FetchOutcome InfoEnvelope :=
  retryRequest (infoAttempt responses) 3 2000

/-- Response envelope of the BPN API as read by
services/bpnApiService.js (`data` may be absent). -/
structure BpnEnvelope where
  status : String
  message : String
  data : Option (List Snapshot)
deriving DecidableEq

/-- The single attempt of `fetchCurrentPrices`: succeed only when
`response.data?.status === 'success'` and the `data` array is present,
otherwise throw. -/
def bpnAttempt (responses : Nat → Option BpnEnvelope) (i : Nat) :
    Except String (List Snapshot) :=
  match responses i with
  | none => .error "BPN API fetch failed: request failed"
  | some env =>
    if env.status == "success" then
      match env.data with
      | some d => .ok d
      | none => .error "BPN API Error: Invalid response"
    else .error ("BPN API Error: " ++ env.message)

/-- The client `fetchCurrentPrices` from services/bpnApiService.js: a single
`apiClient.get` with no retry wrapper — one attempt, no waiting. -/
def fetchCurrentPrices (responses : Nat → Option BpnEnvelope) :
    FetchOutcome (List Snapshot) :=
  ⟨bpnAttempt responses 0, 1, []⟩

end Fetch

-- ===== Theorems =====

/-- The model `jsAbs` agrees with the absolute value. -/
theorem jsAbs_eq_abs (q : Rat) : jsAbs q = |q| := by
  unfold jsAbs
  by_cases h : q < 0
  · rw [if_pos h, abs_of_neg h]
  · rw [if_neg h, abs_of_nonneg (le_of_not_lt h)]

theorem updateFirst_nil (p : α → Bool) (f : α → α) : updateFirst p f [] = [] := rfl

theorem updateFirst_cons (p : α → Bool) (f : α → α) (a : α) (l : List α) :
    updateFirst p f (a :: l) = if p a then f a :: l else a :: updateFirst p f l := rfl

/-- An `updateFirst` is the identity when `f` fixes the element that
`find?` would return. -/
theorem updateFirst_id_of_find? {p : α → Bool} {f : α → α} {l : List α}
    (h : ∀ a, l.find? p = some a → f a = a) : updateFirst p f l = l := by
  induction l with
  | nil => rfl
  | cons x xs ih =>
    by_cases hx : p x
    · have hfind : (x :: xs).find? p = some x := by
        simp [List.find?_cons, hx]
      simp [updateFirst, hx, h x hfind]
    · have hfind : (x :: xs).find? p = xs.find? p := by
        simp [List.find?_cons, hx]
      simp only [updateFirst, if_neg hx, List.cons.injEq, true_and]
      exact ih fun a ha => h a (hfind ▸ ha)

/-- Two successive `updateFirst` with the same predicate compose, provided
the first update keeps its target inside the predicate. -/
theorem updateFirst_updateFirst {p : α → Bool} {f g : α → α} {l : List α}
    (h : ∀ a, p a = true → p (g a) = true) :
    updateFirst p f (updateFirst p g l) = updateFirst p (fun a => f (g a)) l := by
  induction l with
  | nil => rfl
  | cons x xs ih =>
    by_cases hx : p x
    · simp [updateFirst, hx, h x hx]
    · simp [updateFirst, hx, ih]

/-- Filtering by `q` ignores an `updateFirst` whose target is (before and
after the update) outside `q`. -/
theorem filter_updateFirst {p q : α → Bool} {f : α → α} {l : List α}
    (h : ∀ a ∈ l, p a = true → q a = false ∧ q (f a) = false) :
    (updateFirst p f l).filter q = l.filter q := by
  induction l with
  | nil => rfl
  | cons x xs ih =>
    by_cases hx : p x
    · obtain ⟨h1, h2⟩ := h x (List.mem_cons_self x xs) hx
      simp [updateFirst, hx, List.filter_cons, h1, h2]
    · simp only [updateFirst, if_neg hx, List.filter_cons]
      rw [ih fun a ha hpa => h a (List.mem_cons_of_mem x ha) hpa]

/-- A `find?` commutes with an `updateFirst` on the same predicate, provided
the update keeps its target inside the predicate. -/
theorem find?_updateFirst_self {p : α → Bool} {f : α → α} {l : List α}
    (h : ∀ a, p a = true → p (f a) = true) :
    (updateFirst p f l).find? p = (l.find? p).map f := by
  induction l with
  | nil => rfl
  | cons x xs ih =>
    by_cases hx : p x
    · simp [updateFirst, hx, List.find?_cons, h x hx]
    · simp [updateFirst, hx, List.find?_cons, ih]

/-- A `find?` is unchanged by an `updateFirst` whose target (before and
after the update) never satisfies the searched predicate. -/
theorem find?_updateFirst_disjoint {p q : α → Bool} {f : α → α} {l : List α}
    (h : ∀ a ∈ l, q a = true → p a = false ∧ p (f a) = false) :
    (updateFirst q f l).find? p = l.find? p := by
  induction l with
  | nil => rfl
  | cons x xs ih =>
    by_cases hx : q x
    · obtain ⟨h1, h2⟩ := h x (List.mem_cons_self x xs) hx
      rw [updateFirst, if_pos hx, List.find?_cons_of_neg _ (by simp [h2]),
        List.find?_cons_of_neg _ (by simp [h1])]
    · rw [updateFirst, if_neg hx]
      by_cases hpx : p x
      · rw [List.find?_cons_of_pos _ hpx, List.find?_cons_of_pos _ hpx]
      · rw [List.find?_cons_of_neg _ hpx, List.find?_cons_of_neg _ hpx]
        exact ih fun a ha hqa => h a (List.mem_cons_of_mem x ha) hqa

/-- Every element of `updateFirst p f l` is either an original element or
the image under `f` of an element satisfying `p`. -/
theorem mem_updateFirst {p : α → Bool} {f : α → α} {l : List α} {a : α}
    (ha : a ∈ updateFirst p f l) : a ∈ l ∨ ∃ x ∈ l, p x = true ∧ a = f x := by
  induction l with
  | nil => cases ha
  | cons x xs ih =>
    by_cases hx : p x
    · rw [updateFirst, if_pos hx] at ha
      rcases List.mem_cons.mp ha with h | h
      · exact Or.inr ⟨x, List.mem_cons_self x xs, hx, h⟩
      · exact Or.inl (List.mem_cons_of_mem x h)
    · rw [updateFirst, if_neg hx] at ha
      rcases List.mem_cons.mp ha with h | h
      · exact Or.inl (h ▸ List.mem_cons_self x xs)
      · rcases ih h with h1 | ⟨y, hy, hpy, hay⟩
        · exact Or.inl (List.mem_cons_of_mem x h1)
        · exact Or.inr ⟨y, List.mem_cons_of_mem x hy, hpy, hay⟩

/-- Mapping over `updateFirst` is the identity on the mapped list when `f`
does not change the mapped value. -/
theorem map_updateFirst {p : α → Bool} {f : α → α} {g : α → β} {l : List α}
    (h : ∀ a ∈ l, p a = true → g (f a) = g a) :
    (updateFirst p f l).map g = l.map g := by
  induction l with
  | nil => rfl
  | cons x xs ih =>
    by_cases hx : p x
    · simp [updateFirst, hx, h x (List.mem_cons_self x xs) hx]
    · simp only [updateFirst, if_neg hx, List.map_cons, List.cons.injEq, true_and]
      exact ih fun a ha hpa => h a (List.mem_cons_of_mem x ha) hpa

/-- An `any` is unchanged by an `updateFirst` when the update does not change
the tested property. -/
theorem any_updateFirst {p q : α → Bool} {f : α → α} {l : List α}
    (h : ∀ a ∈ l, q (f a) = q a) :
    (updateFirst p f l).any q = l.any q := by
  induction l with
  | nil => rfl
  | cons x xs ih =>
    by_cases hx : p x
    · simp [updateFirst, hx, List.any_cons, h x (List.mem_cons_self x xs)]
    · simp only [updateFirst, if_neg hx, List.any_cons]
      rw [ih fun a ha => h a (List.mem_cons_of_mem x ha)]

/-- A `find?` over an append is the left result when the left side finds
something. -/
theorem find?_append_some {p : α → Bool} {l l' : List α} {a : α}
    (h : l.find? p = some a) : (l ++ l').find? p = some a := by
  induction l with
  | nil => cases h
  | cons x xs ih =>
    by_cases hx : p x
    · rw [List.find?_cons_of_pos _ hx] at h
      rw [List.cons_append, List.find?_cons_of_pos _ hx]
      exact h
    · rw [List.find?_cons_of_neg _ hx] at h
      rw [List.cons_append, List.find?_cons_of_neg _ hx]
      exact ih h

/-- A `find?` over an append reduces to the right side when the left side
finds nothing. -/
theorem find?_append_none {p : α → Bool} {l l' : List α}
    (h : l.find? p = none) : (l ++ l').find? p = l'.find? p := by
  induction l with
  | nil => simp
  | cons x xs ih =>
    by_cases hx : p x
    · rw [List.find?_cons_of_pos _ hx] at h
      cases h
    · rw [List.find?_cons_of_neg _ hx] at h
      rw [List.cons_append, List.find?_cons_of_neg _ hx]
      exact ih h

namespace PriceSync

/-- One `savePricesFromInformasi` iteration never creates, deletes or
modifies an override-flagged row. -/
theorem filter_override_processInfoCore (cfg : SyncCfg) (rows : List PriceRow)
    (item : Snapshot) :
    ((processInfoCore cfg rows item).1).filter (fun r => r.is_override)
      = rows.filter (fun r => r.is_override) := by
  unfold processInfoCore
  match item.id, item.today with
  | none, _ => rfl
  | some extId, none => rfl
  | some extId, some todayPrice =>
    by_cases h0 : extId == 0
    · simp [h0]
    · simp only [h0, Bool.false_eq_true, if_false]
      cases hc : cfg.commodities.find? (fun c => c.external_id == extId) with
      | none => simp only [hc]
      | some commodity =>
        simp only [hc]
        by_cases hov : rows.any (overrideKey commodity.id cfg.today cfg.regionId)
        · simp [hov]
        · simp only [hov, Bool.false_eq_true, if_false]
          have hnone : ∀ a ∈ rows, overrideKey commodity.id cfg.today cfg.regionId a = false := by
            intro a ha
            by_contra hcon
            exact hov (List.any_eq_true.mpr ⟨a, ha, by
              cases h : overrideKey commodity.id cfg.today cfg.regionId a
              · exact absurd h hcon
              · rfl⟩)
          cases hfind : rows.find? (apiKey commodity.id cfg.today cfg.regionId cfg.level) with
          | none =>
            simp only [hfind]
            simp [List.filter_append]
          | some row =>
            simp only [hfind]
            by_cases heq : row.price = todayPrice
            · simp [heq]
            · simp only [heq, if_false]
              apply filter_updateFirst
              intro a ha hkey
              have hova := hnone a ha
              simp only [apiKey, Bool.and_eq_true, beq_iff_eq] at hkey
              obtain ⟨⟨⟨⟨hc1, hd1⟩, hr1⟩, _⟩, _⟩ := hkey
              simp only [overrideKey, hc1, hd1, hr1, beq_self_eq_true, Bool.true_and] at hova
              exact ⟨hova, hova⟩

/-- C1 per-run invariant for services/priceSync.js: the sublist of
override-flagged price rows is exactly preserved by a whole
`savePricesFromInformasi` run. -/
theorem filter_override_savePrices (cfg : SyncCfg) (items : List Snapshot)
    (rows : List PriceRow) :
    (savePricesFromInformasi cfg items rows).rows.filter (fun r => r.is_override)
      = rows.filter (fun r => r.is_override) := by
  suffices h : ∀ st : SyncResult,
      ((items.foldl (step cfg) st).rows).filter (fun r => r.is_override)
        = st.rows.filter (fun r => r.is_override) from h ⟨rows, 0, 0⟩
  induction items with
  | nil => intro st; rfl
  | cons x xs ih =>
    intro st
    rw [List.foldl_cons, ih]
    exact filter_override_processInfoCore cfg st.rows x

end PriceSync

namespace BPN

/-- One `syncPrices` iteration never creates, deletes or modifies an
override-flagged row. -/
theorem filter_override_processBpn (cfg : BpnCfg) (st : BpnResult) (item : Snapshot) :
    ((processBpn cfg st item).rows).filter (fun r => r.is_override)
      = st.rows.filter (fun r => r.is_override) := by
  unfold processBpn
  match item.id with
  | none => rfl
  | some extId =>
    by_cases h0 : (extId == 0 || item.name == "") = true
    · simp [h0]
    · simp only [h0, Bool.false_eq_true, if_false]
      match effectivePrice item with
      | none => rfl
      | some price =>
        by_cases hband : (price < 100 || 1000000 < price) = true
        · simp [hband]
        · simp only [hband, Bool.false_eq_true, if_false]
          cases hc : cfg.commodities.find? (fun c => c.external_id == extId) with
          | none => simp only [hc]
          | some commodity =>
            simp only [hc]
            by_cases hov : st.rows.any (overrideKeyBpn commodity.id cfg.today)
            · simp [hov]
            · simp only [hov, Bool.false_eq_true, if_false]
              have hnone : ∀ a ∈ st.rows, overrideKeyBpn commodity.id cfg.today a = false := by
                intro a ha
                by_contra hcon
                exact hov (List.any_eq_true.mpr ⟨a, ha, by
                  cases h : overrideKeyBpn commodity.id cfg.today a
                  · exact absurd h hcon
                  · rfl⟩)
              cases hfind : st.rows.find? (apiKeyBpn commodity.id cfg.today cfg.level) with
              | none =>
                simp only [hfind]
                simp [List.filter_append]
              | some row =>
                simp only [hfind]
                by_cases heq : (1 : Rat) / 100 < jsAbs (row.price - price)
                · rw [if_pos (by simpa using heq)]
                  apply filter_updateFirst
                  intro a ha hkey
                  have hova := hnone a ha
                  simp only [apiKeyBpn, Bool.and_eq_true, beq_iff_eq] at hkey
                  obtain ⟨⟨⟨hc1, hd1⟩, _⟩, _⟩ := hkey
                  simp only [overrideKeyBpn, hc1, hd1, beq_self_eq_true, Bool.true_and] at hova
                  exact ⟨hova, hova⟩
                · rw [if_neg (by simpa using heq)]

/-- C1 per-run invariant for services/bpnApiService.js: the sublist of
override-flagged price rows is exactly preserved by a whole `syncPrices`
run. -/
theorem filter_override_syncPrices (cfg : BpnCfg) (items : List Snapshot)
    (rows : List PriceRow) :
    (syncPrices cfg items rows).rows.filter (fun r => r.is_override)
      = rows.filter (fun r => r.is_override) := by
  suffices h : ∀ st : BpnResult,
      ((items.foldl (processBpn cfg) st).rows).filter (fun r => r.is_override)
        = st.rows.filter (fun r => r.is_override) from h ⟨rows, 0, 0⟩
  induction items with
  | nil => intro st; rfl
  | cons x xs ih =>
    intro st
    rw [List.foldl_cons, ih]
    exact filter_override_processBpn cfg st x

end BPN

/-- C1: For every reconciliation run — `savePricesFromInformasi` in
services/priceSync.js as well as `syncPrices` in services/bpnApiService.js —
and every input snapshot list, the sublist of override-flagged price rows
is preserved exactly.  Hence an override-flagged PricePoint existing for a
snapshot's (commodity, date, region) keeps its stored price and its
override flag unchanged regardless of the snapshot's upstream price, and
no reconciliation write ever clears an override flag (clearing one would
remove the row from the filtered sublist). -/
theorem reconcile_preserves_override_rows :
    (∀ (cfg : PriceSync.SyncCfg) (items : List Snapshot) (rows : List PriceRow),
      (PriceSync.savePricesFromInformasi cfg items rows).rows.filter (fun r => r.is_override)
        = rows.filter (fun r => r.is_override))
    ∧ (∀ (cfg : BPN.BpnCfg) (items : List Snapshot) (rows : List PriceRow),
      (BPN.syncPrices cfg items rows).rows.filter (fun r => r.is_override)
        = rows.filter (fun r => r.is_override)) :=
  ⟨PriceSync.filter_override_savePrices, BPN.filter_override_syncPrices⟩

namespace Ovr

/-- When the current price is positive, the JavaScript >50% test agrees
with the exact rational inequality. -/
theorem jsDeltaGtFifty_of_pos {r c : Rat} (hc : c ≠ 0) :
    jsDeltaGtFifty r c = decide (|r - c| / c * 100 > 50) := by
  simp [jsDeltaGtFifty, hc, jsAbs_eq_abs]

/-- Outcome of `createOverride` once the commodity exists and a current
price row is found: a Boolean split on the JavaScript over-50%-and-not-
admin test. -/
theorem createOverride_found (st : OvState) (cid d : Nat) (reqPrice : Rat)
    (rid : Option Nat) (user : UserRec) (cp : PriceRec)
    (hc : st.commodities.contains cid = true)
    (hp : st.prices.find? (currentPriceKey cid d (jsOrNull rid)) = some cp) :
    createOverride st cid d reqPrice rid user =
      if jsDeltaGtFifty reqPrice cp.price && !(user.role == "admin") then
        ({ st with
            overrides := st.overrides
              ++ [⟨st.nextOverrideId, cp.id, cp.price, reqPrice, user.id, none, .pending⟩]
            nextOverrideId := st.nextOverrideId + 1 },
          .created ⟨st.nextOverrideId, cp.id, cp.price, reqPrice, user.id, none, .pending⟩)
      else
        ({ st with
            prices := updateFirst (currentPriceKey cid d (jsOrNull rid))
              (fun p => { p with price := reqPrice, source := Source.manual, is_override := true }) st.prices
            overrides := st.overrides
              ++ [⟨st.nextOverrideId, cp.id, cp.price, reqPrice, user.id, some user.id, .approved⟩]
            audit := st.audit
              ++ [⟨some user.id, "price_override", "price", cp.id, some reqPrice, some reqPrice⟩]
            nextOverrideId := st.nextOverrideId + 1 },
          .created ⟨st.nextOverrideId, cp.id, cp.price, reqPrice, user.id, some user.id,
            .approved⟩) := by
  unfold createOverride
  rw [if_neg (not_not_intro hc)]
  simp only [hp]
  cases hpend : jsDeltaGtFifty reqPrice cp.price && !(user.role == "admin") <;> simp

/-- C4: `createOverride` against an existing current PricePoint with a
positive stored price: when the percentage delta exceeds 50 and the
requester is not an admin, the override is created `pending` with no
approver and neither the price rows nor the audit log change; in every
other case the override is created `approved`, the current price row is
immediately rewritten to the requested price with source `manual` and the
override flag set, and exactly one audit entry is appended. -/
theorem createOverride_approval_policy
    (st : OvState) (cid d : Nat) (reqPrice : Rat) (rid : Option Nat)
    (user : UserRec) (cp : PriceRec)
    (hc : st.commodities.contains cid = true)
    (hp : st.prices.find? (currentPriceKey cid d (jsOrNull rid)) = some cp)
    (hpos : 0 < cp.price) :
    (|reqPrice - cp.price| / cp.price * 100 > 50 ∧ user.role ≠ "admin" →
      (∃ ov, (createOverride st cid d reqPrice rid user).2 = .created ov
          ∧ ov.status = .pending ∧ ov.approved_by = none)
      ∧ (createOverride st cid d reqPrice rid user).1.prices = st.prices
      ∧ (createOverride st cid d reqPrice rid user).1.audit = st.audit)
    ∧ (¬ (|reqPrice - cp.price| / cp.price * 100 > 50 ∧ user.role ≠ "admin") →
      (∃ ov, (createOverride st cid d reqPrice rid user).2 = .created ov
          ∧ ov.status = .approved ∧ ov.approved_by = some user.id)
      ∧ (createOverride st cid d reqPrice rid user).1.prices.find?
            (currentPriceKey cid d (jsOrNull rid))
          = some { cp with price := reqPrice, source := Source.manual, is_override := true }
      ∧ (createOverride st cid d reqPrice rid user).1.audit.length = st.audit.length + 1) := by
  have hc0 : cp.price ≠ 0 := ne_of_gt hpos
  have hkey : ∀ p : PriceRec, currentPriceKey cid d (jsOrNull rid) p = true →
      currentPriceKey cid d (jsOrNull rid)
        { p with price := reqPrice, source := Source.manual, is_override := true } = true := by
    intro p hp2
    simpa [currentPriceKey] using hp2
  rw [createOverride_found st cid d reqPrice rid user cp hc hp, jsDeltaGtFifty_of_pos hc0]
  constructor
  · intro hcond
    have hpend : (decide (|reqPrice - cp.price| / cp.price * 100 > 50)
        && !(user.role == "admin")) = true := by
      simp [hcond.1, hcond.2]
    rw [hpend]
    exact ⟨⟨_, rfl, rfl, rfl⟩, rfl, rfl⟩
  · intro hcond
    have hpend : (decide (|reqPrice - cp.price| / cp.price * 100 > 50)
        && !(user.role == "admin")) = false := by
      rcases not_and_or.mp hcond with h | h
      · simp [h]
      · simp only [not_not] at h
        simp [h]
    rw [hpend]
    simp only [Bool.false_eq_true, if_false]
    refine ⟨⟨_, rfl, rfl, rfl⟩, ?_, ?_⟩
    · rw [find?_updateFirst_self hkey, hp]
      rfl
    · simp

/-- Closed witness for `createOverride_approval_policy`: the spec's
Scenario C/D state — current price 12500, requested price 20000 (60%
delta) — exercised for a non-admin requester, where the pending branch of
the policy theorem applies. -/
theorem createOverride_approval_policy_witness :
    ((⟨[1], [⟨1, 1, 0, none, 12500, .api, false⟩], [], [], 1⟩ : OvState).commodities.contains 1
        = true)
    ∧ (Ovr.createOverride ⟨[1], [⟨1, 1, 0, none, 12500, .api, false⟩], [], [], 1⟩
        1 0 20000 none ⟨7, "enumerator"⟩).1.prices
        = [⟨1, 1, 0, none, 12500, .api, false⟩] := by
  constructor
  · decide
  · have h := (createOverride_approval_policy
      ⟨[1], [⟨1, 1, 0, none, 12500, .api, false⟩], [], [], 1⟩
      1 0 20000 none ⟨7, "enumerator"⟩ ⟨1, 1, 0, none, 12500, .api, false⟩
      (by decide) (by decide) (by norm_num)).1
      (by constructor
          · norm_num
          · decide)
    exact h.2.1

/-- C5 (code bug): on the auto-approved path, `createOverride` writes the
audit entry after `currentPrice.update(...)` has already mutated the
Sequelize instance, so `old_values.price` records the requested (new)
price, not the pre-override price.  Concretely: stored price 12500,
admin requests 20000, and the audit entry's before-snapshot is 20000. -/
theorem createOverride_audit_old_snapshot_is_new_price :
    ((Ovr.createOverride ⟨[1], [⟨1, 1, 0, none, 12500, .api, false⟩], [], [], 1⟩
        1 0 20000 none ⟨9, "admin"⟩).1.audit.map fun e => e.old_price) = [some 20000]
    ∧ (12500 : Rat) ≠ 20000 := by
  constructor
  · with_unfolding_all rfl
  · decide

/-- C10: `createOverride` on a current price row whose stored price is 0,
with a nonzero requested price and a non-admin requester: the JavaScript
delta computation divides by zero and yields `Infinity > 50`, so the
operation completes normally with a `pending` override and no approver,
and neither the price rows nor the audit log are mutated. -/
theorem createOverride_zero_current_pending
    (st : OvState) (cid d : Nat) (reqPrice : Rat) (rid : Option Nat)
    (user : UserRec) (cp : PriceRec)
    (hc : st.commodities.contains cid = true)
    (hp : st.prices.find? (currentPriceKey cid d (jsOrNull rid)) = some cp)
    (h0 : cp.price = 0) (hr : reqPrice ≠ 0) (hrole : user.role ≠ "admin") :
    (∃ ov, (createOverride st cid d reqPrice rid user).2 = .created ov
        ∧ ov.status = .pending ∧ ov.approved_by = none)
    ∧ (createOverride st cid d reqPrice rid user).1.prices = st.prices
    ∧ (createOverride st cid d reqPrice rid user).1.audit = st.audit := by
  have hdg : jsDeltaGtFifty reqPrice cp.price = true := by
    simp [jsDeltaGtFifty, h0, hr]
  have hpend : (jsDeltaGtFifty reqPrice cp.price && !(user.role == "admin")) = true := by
    simp [hdg, hrole]
  rw [createOverride_found st cid d reqPrice rid user cp hc hp, hpend]
  exact ⟨⟨_, rfl, rfl, rfl⟩, rfl, rfl⟩

/-- Closed witness for `createOverride_zero_current_pending`: a stored
price of 0 with a nonzero request by a non-admin leaves the table
unchanged and yields a pending override. -/
theorem createOverride_zero_current_pending_witness :
    (createOverride ⟨[1], [⟨1, 1, 0, none, 0, .api, false⟩], [], [], 1⟩
        1 0 15000 none ⟨7, "enumerator"⟩).1.prices
      = [⟨1, 1, 0, none, 0, .api, false⟩] :=
  ((createOverride_zero_current_pending
      ⟨[1], [⟨1, 1, 0, none, 0, .api, false⟩], [], [], 1⟩
      1 0 15000 none ⟨7, "enumerator"⟩ ⟨1, 1, 0, none, 0, .api, false⟩
      (by decide) (by decide) (by decide) (by norm_num) (by decide)).2).1

/-- Outcome of `updateOverrideStatus` with decision `approved` on a
pending override. -/
theorem updateOverrideStatus_approve (st : OvState) (ovId : Nat) (user : UserRec)
    (ov : OverrideRec)
    (hov : st.overrides.find? (fun o => o.id == ovId) = some ov)
    (hpend : ov.status = .pending) :
    updateOverrideStatus st ovId "approved" user =
      ({ st with
          overrides := updateFirst (fun o => o.id == ovId)
            (fun o => { o with status := .approved, approved_by := some user.id }) st.overrides
          prices := updateFirst (fun p => p.id == ov.price_id)
            (fun p => { p with price := ov.override_price, source := Source.manual, is_override := true }) st.prices
          audit := st.audit
            ++ [⟨some user.id, "override_status", "price_override", ov.id, none, none⟩] },
        .updated { ov with status := .approved, approved_by := some user.id }) := by
  unfold updateOverrideStatus
  rw [if_neg (by simp)]
  rw [hov]
  simp only [hpend]
  simp

/-- Outcome of `deleteOverride` when the override row exists. -/
theorem deleteOverride_found (st : OvState) (ovId : Nat) (user : UserRec)
    (ov : OverrideRec)
    (hov : st.overrides.find? (fun o => o.id == ovId) = some ov) :
    deleteOverride st ovId user =
      ({ st with
          prices :=
            if ov.status = .approved then
              updateFirst (fun p => p.id == ov.price_id)
                (fun p => { p with price := ov.original_price, source := Source.api, is_override := false }) st.prices
            else st.prices
          overrides := st.overrides.filter (fun o => ¬ (o.id == ovId))
          audit := st.audit
            ++ [⟨some user.id, "override_deleted", "price_override", ov.id,
                some ov.original_price, none⟩] },
        .deleted) := by
  unfold deleteOverride
  rw [hov]

/-- C3 (amended): for a pending override on a price row whose stored
price equals the override's `original_price` and whose source is `api`
with the override flag clear, `decide(approve)` followed by `delete`
restores the `prices` table exactly.  (The unamended claim fails when the
pre-override row was already manual/override-flagged, because `delete`
always reverts to source `api` and a cleared flag.) -/
theorem approve_then_delete_restores_prices
    (st : OvState) (ovId : Nat) (ov : OverrideRec) (p : PriceRec)
    (approver actor : UserRec)
    (hov : st.overrides.find? (fun o => o.id == ovId) = some ov)
    (hpend : ov.status = .pending)
    (hp : st.prices.find? (fun q => q.id == ov.price_id) = some p)
    (horig : ov.original_price = p.price)
    (hsrc : p.source = .api)
    (hflag : p.is_override = false) :
    ((deleteOverride (updateOverrideStatus st ovId "approved" approver).1 ovId
        actor).1).prices = st.prices := by
  rw [updateOverrideStatus_approve st ovId approver ov hov hpend]
  have hgid : ∀ o : OverrideRec, (o.id == ovId) = true →
      (({ o with status := OvStatus.approved, approved_by := some approver.id } : OverrideRec).id == ovId) = true := by
    intro o h
    simpa using h
  have hfind2 : (updateFirst (fun o => o.id == ovId)
      (fun o => { o with status := OvStatus.approved, approved_by := some approver.id })
      st.overrides).find? (fun o => o.id == ovId)
      = some { ov with status := OvStatus.approved, approved_by := some approver.id } := by
    rw [find?_updateFirst_self hgid, hov]
    rfl
  rw [deleteOverride_found _ ovId actor _ hfind2]
  simp only [if_pos rfl]
  have hpid : ∀ q : PriceRec, (q.id == ov.price_id) = true →
      (({ q with price := ov.override_price, source := Source.manual, is_override := true } : PriceRec).id == ov.price_id) = true := by
    intro q h
    simpa using h
  rw [updateFirst_updateFirst hpid]
  exact updateFirst_id_of_find? fun a ha => by
    rw [hp] at ha
    cases ha
    cases p
    simp_all

/-- Closed witness for `approve_then_delete_restores_prices`: a pending
override (original price 12500, requested 20000) on an api-sourced,
unflagged row; approving then deleting leaves the table as it started. -/
theorem approve_then_delete_restores_prices_witness :
    ((deleteOverride (updateOverrideStatus
        ⟨[1], [⟨1, 1, 0, none, 12500, .api, false⟩], [⟨5, 1, 12500, 20000, 2, none, .pending⟩],
          [], 6⟩
        5 "approved" ⟨3, "admin"⟩).1 5 ⟨4, "admin"⟩).1).prices
      = [⟨1, 1, 0, none, 12500, .api, false⟩] :=
  approve_then_delete_restores_prices
    ⟨[1], [⟨1, 1, 0, none, 12500, .api, false⟩], [⟨5, 1, 12500, 20000, 2, none, .pending⟩],
      [], 6⟩
    5 ⟨5, 1, 12500, 20000, 2, none, .pending⟩ ⟨1, 1, 0, none, 12500, .api, false⟩
    ⟨3, "admin"⟩ ⟨4, "admin"⟩ rfl rfl rfl rfl rfl rfl

/-- C3 counterexample: the round-trip does not restore the PricePoint
exactly when the pre-override row was itself manual and override-flagged
(price 100, source `manual`, flag set — reachable via an earlier approved
override).  After `decide(approve)` and `delete` the row ends at source
`api` with the flag cleared, so the pre-override source tag and override
flag are not restored. -/
theorem approve_then_delete_changes_source_and_flag :
    ((deleteOverride (updateOverrideStatus
        ⟨[1], [⟨1, 1, 0, none, 100, .manual, true⟩], [⟨5, 1, 100, 200, 2, none, .pending⟩],
          [], 6⟩
        5 "approved" ⟨3, "admin"⟩).1 5 ⟨3, "admin"⟩).1).prices
      = [⟨1, 1, 0, none, 100, .api, false⟩]
    ∧ ([⟨1, 1, 0, none, 100, .api, false⟩] : List PriceRec)
      ≠ [⟨1, 1, 0, none, 100, .manual, true⟩] := by
  constructor
  · with_unfolding_all rfl
  · decide

end Ovr

namespace BPN

/-- A `syncPrices` iteration with no effective price (neither `today` nor
`yesterday` present and positive) changes nothing. -/
theorem processBpn_eq_of_no_effective (cfg : BpnCfg) (st : BpnResult) (item : Snapshot)
    (h : effectivePrice item = none) : processBpn cfg st item = st := by
  unfold processBpn
  cases hid : item.id with
  | none => rfl
  | some extId =>
    dsimp only
    by_cases h0 : (extId == 0 || item.name == "") = true
    · rw [if_pos h0]
    · rw [if_neg h0, h]

/-- Every row present after a `syncPrices` iteration is either an original
row or carries exactly the snapshot's effective price. -/
theorem mem_processBpn (cfg : BpnCfg) (st : BpnResult) (item : Snapshot) (r : PriceRow)
    (hr : r ∈ (processBpn cfg st item).rows) :
    r ∈ st.rows ∨ ∃ e, effectivePrice item = some e ∧ r.price = e := by
  unfold processBpn at hr
  cases hid : item.id with
  | none =>
    simp only [hid] at hr
    exact Or.inl hr
  | some extId =>
    simp only [hid] at hr
    by_cases h0 : (extId == 0 || item.name == "") = true
    · rw [if_pos h0] at hr
      exact Or.inl hr
    · rw [if_neg h0] at hr
      cases heff : effectivePrice item with
      | none =>
        simp only [heff] at hr
        exact Or.inl hr
      | some price =>
        simp only [heff] at hr
        by_cases hband : (price < 100 || 1000000 < price) = true
        · rw [if_pos hband] at hr
          exact Or.inl hr
        · rw [if_neg hband] at hr
          cases hc : cfg.commodities.find? (fun c => c.external_id == extId) with
          | none =>
            simp only [hc] at hr
            exact Or.inl hr
          | some commodity =>
            simp only [hc] at hr
            by_cases hov : st.rows.any (overrideKeyBpn commodity.id cfg.today) = true
            · rw [if_pos hov] at hr
              exact Or.inl hr
            · rw [if_neg hov] at hr
              cases hfind : st.rows.find? (apiKeyBpn commodity.id cfg.today cfg.level) with
              | none =>
                simp only [hfind] at hr
                simp only [List.mem_append, List.mem_singleton] at hr
                rcases hr with h | h
                · exact Or.inl h
                · exact Or.inr ⟨price, rfl, by rw [h]⟩
              | some row =>
                simp only [hfind] at hr
                by_cases heq : (1 : Rat) / 100 < jsAbs (row.price - price)
                · rw [if_pos heq] at hr
                  rcases mem_updateFirst hr with h | ⟨x, _, _, hax⟩
                  · exact Or.inl h
                  · exact Or.inr ⟨price, rfl, by rw [hax]⟩
                · rw [if_neg heq] at hr
                  exact Or.inl hr

/-- C2 (amended): for the `syncPrices` reconciliation path of
services/bpnApiService.js — over any run: when no snapshot carries a
valid (`> 0`) `today` or `yesterday` price, the run changes nothing (no
row created, no row touched); and every price row present after the run
is either an original row or stores exactly some snapshot's effective
price (`today` when present and positive, else `yesterday` when present
and positive).  (The parallel `savePricesFromInformasi` path violates the
unamended claim: see its counterexample, which writes a raw `today` of 0
and never consults `yesterday`.) -/
theorem syncPrices_stores_effective_price (cfg : BpnCfg) (items : List Snapshot)
    (rows : List PriceRow) :
    ((∀ item ∈ items, effectivePrice item = none) →
      syncPrices cfg items rows = ⟨rows, 0, 0⟩)
    ∧ ∀ r ∈ (syncPrices cfg items rows).rows, r ∈ rows ∨
        ∃ item ∈ items, ∃ e, effectivePrice item = some e ∧ r.price = e := by
  have aux1 : ∀ (l : List Snapshot), (∀ item ∈ l, effectivePrice item = none) →
      ∀ st : BpnResult, l.foldl (processBpn cfg) st = st := by
    intro l
    induction l with
    | nil => intro _ st; rfl
    | cons x xs ih =>
      intro hl st
      rw [List.foldl_cons, processBpn_eq_of_no_effective cfg st x (hl x (List.mem_cons_self x xs))]
      exact ih (fun i hi => hl i (List.mem_cons_of_mem x hi)) st
  have aux2 : ∀ (l : List Snapshot) (st : BpnResult) (r : PriceRow),
      r ∈ (l.foldl (processBpn cfg) st).rows →
      r ∈ st.rows ∨ ∃ item ∈ l, ∃ e, effectivePrice item = some e ∧ r.price = e := by
    intro l
    induction l with
    | nil => intro st r hr; exact Or.inl hr
    | cons x xs ih =>
      intro st r hr
      rcases ih (processBpn cfg st x) r hr with h | ⟨i, hi, e, he, hpe⟩
      · rcases mem_processBpn cfg st x r h with h1 | ⟨e, he, hpe⟩
        · exact Or.inl h1
        · exact Or.inr ⟨x, List.mem_cons_self x xs, e, he, hpe⟩
      · exact Or.inr ⟨i, List.mem_cons_of_mem x hi, e, he, hpe⟩
  exact ⟨fun hall => aux1 items hall ⟨rows, 0, 0⟩, fun r hr => aux2 items ⟨rows, 0, 0⟩ r hr⟩

/-- Closed witness for `syncPrices_stores_effective_price`: a snapshot
with `today` and `yesterday` both null has no effective price and the run
is a no-op. -/
theorem syncPrices_stores_effective_price_witness :
    syncPrices ⟨[⟨1, 7, "Beras"⟩], 0, "konsumen"⟩ [⟨some 7, "Beras", none, none⟩] [] = ⟨[], 0, 0⟩ :=
  (syncPrices_stores_effective_price ⟨[⟨1, 7, "Beras"⟩], 0, "konsumen"⟩
      [⟨some 7, "Beras", none, none⟩] []).1
    (by
      intro i hi
      rw [List.mem_singleton] at hi
      rw [hi]
      rfl)

/-- C7 (amended): the plausibility band is enforced by the `syncPrices`
path of services/bpnApiService.js: a defined effective price below 100 or
above 1,000,000 (and likewise an undefined effective price — null, zero
or negative inputs) makes the iteration skip the snapshot without any
error and without touching the table, while the boundary values 100 and
1,000,000 are accepted and written.  (The `savePricesFromInformasi` path
enforces no band: see its counterexample accepting 99.) -/
theorem syncPrices_plausibility_band :
    (∀ (cfg : BpnCfg) (st : BpnResult) (item : Snapshot) (e : Rat),
      effectivePrice item = some e → (e < 100 ∨ 1000000 < e) →
      processBpn cfg st item = st)
    ∧ (BPN.syncPrices ⟨[⟨1, 7, "Beras"⟩], 0, "konsumen"⟩
        [⟨some 7, "Beras", some 100, none⟩] []).rows
        = [⟨1, 0, none, .api, "konsumen", 100, false⟩]
    ∧ (BPN.syncPrices ⟨[⟨1, 7, "Beras"⟩], 0, "konsumen"⟩
        [⟨some 7, "Beras", some 1000000, none⟩] []).rows
        = [⟨1, 0, none, .api, "konsumen", 1000000, false⟩]
    ∧ (BPN.syncPrices ⟨[⟨1, 7, "Beras"⟩], 0, "konsumen"⟩
        [⟨some 7, "Beras", some 99, none⟩] []).rows = []
    ∧ (BPN.syncPrices ⟨[⟨1, 7, "Beras"⟩], 0, "konsumen"⟩
        [⟨some 7, "Beras", some 1000001, none⟩] []).rows = [] := by
  refine ⟨?_, ?_, ?_, ?_, ?_⟩
  · intro cfg st item e heff hband
    unfold processBpn
    cases hid : item.id with
    | none => rfl
    | some extId =>
      dsimp only
      by_cases h0 : (extId == 0 || item.name == "") = true
      · rw [if_pos h0]
      · rw [if_neg h0, heff]
        dsimp only
        rw [if_pos (by
          rcases hband with h | h
          · simp [h]
          · simp [h])]
  · with_unfolding_all rfl
  · with_unfolding_all rfl
  · with_unfolding_all rfl
  · with_unfolding_all rfl

/-- Closed witness for `syncPrices_plausibility_band`: an effective price
of 99 is skipped, leaving the state untouched. -/
theorem syncPrices_plausibility_band_witness :
    processBpn ⟨[⟨1, 7, "Beras"⟩], 0, "konsumen"⟩ ⟨[], 0, 0⟩ ⟨some 7, "Beras", some 99, none⟩
      = ⟨[], 0, 0⟩ :=
  syncPrices_plausibility_band.1 ⟨[⟨1, 7, "Beras"⟩], 0, "konsumen"⟩ ⟨[], 0, 0⟩
    ⟨some 7, "Beras", some 99, none⟩ 99 (by with_unfolding_all rfl)
    (Or.inl (by decide))

end BPN

namespace PriceSync

/-- C2 counterexample: `savePricesFromInformasi` (services/priceSync.js)
violates the today-else-yesterday rule.  For the snapshot
`{id: 7, today: 0, yesterday: 12000}` the effective price in the sense of
the claim is 12000 (today present but invalid, yesterday valid), yet the
run creates a row storing the raw `today` value 0 — neither skipping the
snapshot nor falling back to `yesterday`. -/
theorem savePrices_writes_zero_ignoring_yesterday :
    (savePricesFromInformasi ⟨[⟨1, 7, "Beras"⟩], 0, none, "konsumen"⟩
        [⟨some 7, "Beras", some 0, some 12000⟩] []).rows
      = [⟨1, 0, none, .api, "konsumen", 0, false⟩]
    ∧ BPN.effectivePrice ⟨some 7, "Beras", some 0, some 12000⟩ = some 12000
    ∧ (0 : Rat) ≠ 12000 := by
  refine ⟨?_, ?_, ?_⟩
  · with_unfolding_all rfl
  · with_unfolding_all rfl
  · decide

/-- C7 counterexample: `savePricesFromInformasi` (services/priceSync.js)
applies no plausibility band: a snapshot whose price 99 lies below the
100–1,000,000 band is written, not treated as no data. -/
theorem savePrices_accepts_price_99 :
    (savePricesFromInformasi ⟨[⟨1, 7, "Beras"⟩], 0, none, "konsumen"⟩
        [⟨some 7, "Beras", some 99, none⟩] []).rows
      = [⟨1, 0, none, .api, "konsumen", 99, false⟩]
    ∧ (99 : Rat) < 100 := by
  constructor
  · with_unfolding_all rfl
  · decide

end PriceSync

namespace Stats

/-- C8: `topMovers` (the top-movers block of `getPriceStatistics`) always
returns a list sorted by descending absolute recorded percentage change
(`moverRel`) of length at most 10; and on the spec's Scenario E —
commodity 1 moving 10000→15000 (+50%) and commodity 2 moving 20000→19000
(−5%) — commodity 1 is ranked above commodity 2. -/
theorem topMovers_ranking :
    (∀ firstRows lastRows : List (Nat × Rat),
      List.Sorted moverRel (topMovers firstRows lastRows)
      ∧ (topMovers firstRows lastRows).length ≤ 10)
    ∧ (topMovers [(1, 10000), (2, 20000)] [(1, 15000), (2, 19000)]).map (fun m => m.id)
        = [1, 2]
    ∧ (topMovers [(1, 10000), (2, 20000)]
        [(1, 15000), (2, 19000)]).map (fun m => m.change_percentage) = [50, -5] := by
  refine ⟨fun firstRows lastRows => ⟨?_, ?_⟩, ?_, ?_⟩
  · exact List.Pairwise.sublist (List.take_sublist _ _)
      (List.sorted_insertionSort moverRel _)
  · exact List.length_take_le _ _
  · with_unfolding_all rfl
  · with_unfolding_all rfl

end Stats

namespace Fetch

/-- Unfolding step of `retryRequest` for a failed non-final attempt: the
loop waits `delay` ms, doubles the delay and retries. -/
theorem retryAux_error_step {α : Type} (fn : Nat → Except String α) (i n delay : Nat)
    (e : String) (h : fn i = .error e) :
    retryAux fn i (n + 2) delay =
      ⟨(retryAux fn (i + 1) (n + 1) (delay * 2)).result,
       (retryAux fn (i + 1) (n + 1) (delay * 2)).attempts + 1,
       delay :: (retryAux fn (i + 1) (n + 1) (delay * 2)).waits⟩ := by
  conv_lhs => unfold retryAux
  rw [h]

/-- C9 (amended): the retrying client `fetchHargaInformasi`
(services/priceSync.js) makes exactly 3 attempts when every underlying
attempt fails, waiting 2000 ms before the second and 4000 ms before the
third, and then fails with the last attempt's error; and a response
envelope whose `status` is not `'success'` counts as a failed attempt.
(The unamended claim fails for `fetchCurrentPrices` in
services/bpnApiService.js, which has no retry at all: see the
counterexample.) -/
theorem fetchHargaInformasi_retry_schedule (responses : Nat → Option InfoEnvelope)
    (e0 e1 e2 : String)
    (h0 : infoAttempt responses 0 = .error e0)
    (h1 : infoAttempt responses 1 = .error e1)
    (h2 : infoAttempt responses 2 = .error e2) :
    fetchHargaInformasi responses = ⟨.error e2, 3, [2000, 4000]⟩
    ∧ ∀ (rs : Nat → Option InfoEnvelope) (i : Nat) (env : InfoEnvelope),
        rs i = some env → env.status ≠ "success" →
        infoAttempt rs i = .error ("API returned error: " ++ env.message) := by
  constructor
  · have s1x : retryAux (infoAttempt responses) 0 3 2000
        = ⟨(retryAux (infoAttempt responses) 1 2 4000).result,
           (retryAux (infoAttempt responses) 1 2 4000).attempts + 1,
           2000 :: (retryAux (infoAttempt responses) 1 2 4000).waits⟩ :=
      retryAux_error_step (infoAttempt responses) 0 1 2000 e0 h0
    have s2x : retryAux (infoAttempt responses) 1 2 4000
        = ⟨(retryAux (infoAttempt responses) 2 1 8000).result,
           (retryAux (infoAttempt responses) 2 1 8000).attempts + 1,
           4000 :: (retryAux (infoAttempt responses) 2 1 8000).waits⟩ :=
      retryAux_error_step (infoAttempt responses) 1 0 4000 e1 h1
    have s3 : retryAux (infoAttempt responses) 2 1 8000 = ⟨.error e2, 1, []⟩ := by
      unfold retryAux
      rw [h2]
    have final : retryAux (infoAttempt responses) 0 3 2000 = ⟨.error e2, 3, [2000, 4000]⟩ := by
      rw [s1x, s2x, s3]
    exact final
  · intro rs i env hres hstat
    unfold infoAttempt
    rw [hres]
    dsimp only
    rw [if_neg (by
      simp only [beq_iff_eq]
      exact hstat)]

/-- Closed witness for `fetchHargaInformasi_retry_schedule`: with every
attempt failing at the network level, the client reports the error after
exactly 3 attempts with waits of 2000 ms and 4000 ms. -/
theorem fetchHargaInformasi_retry_schedule_witness :
    fetchHargaInformasi (fun _ => none) = ⟨.error "request failed", 3, [2000, 4000]⟩ :=
  (fetchHargaInformasi_retry_schedule (fun _ => none)
    "request failed" "request failed" "request failed" rfl rfl rfl).1

/-- C9 counterexample: `fetchCurrentPrices` (services/bpnApiService.js)
is a fetch of external prices with no retry wrapper: when its underlying
attempt fails it makes exactly 1 attempt — not 3 — performs no waits, and
fails immediately. -/
theorem fetchCurrentPrices_single_attempt :
    (fetchCurrentPrices (fun _ => none)).attempts = 1
    ∧ (fetchCurrentPrices (fun _ => none)).attempts ≠ 3
    ∧ (fetchCurrentPrices (fun _ => none)).waits = []
    ∧ (fetchCurrentPrices (fun _ => none)).result
        = .error "BPN API fetch failed: request failed" :=
  ⟨rfl, by decide, rfl, rfl⟩

end Fetch

namespace PriceSync

/-- The step `processInfoCore` re-expressed through `resolveCommodity`, flattening
the id-truthiness and registry lookup into one scrutinee. -/
theorem processInfoCore_eq (cfg : SyncCfg) (rows : List PriceRow) (item : Snapshot) :
    processInfoCore cfg rows item =
      match item.today, resolveCommodity cfg item with
      | some todayPrice, some commodity =>
        if rows.any (overrideKey commodity.id cfg.today cfg.regionId) then (rows, .skipped)
        else
          match rows.find? (apiKey commodity.id cfg.today cfg.regionId cfg.level) with
          | none =>
            (rows ++ [⟨commodity.id, cfg.today, cfg.regionId, .api, cfg.level, todayPrice,
              false⟩], .createdRow)
          | some row =>
            if row.price = todayPrice then (rows, .unchangedRow)
            else
              (updateFirst (apiKey commodity.id cfg.today cfg.regionId cfg.level)
                (fun r => { r with price := todayPrice }) rows, .updatedRow)
      | _, _ => (rows, .skipped) := by
  unfold processInfoCore resolveCommodity
  cases hid : item.id with
  | none => cases htd : item.today <;> rfl
  | some extId =>
    cases htd : item.today with
    | none => rfl
    | some t =>
      by_cases h0 : (extId == 0) = true
      · simp [h0]
      · simp only [h0, Bool.false_eq_true, if_false]
        cases cfg.commodities.find? (fun c => c.external_id == extId) <;> rfl

/-- A price-only update does not change the api key. -/
theorem apiKey_price_update (c d : Nat) (r : Option Nat) (lv : String) (a : PriceRow)
    (x : Rat) : apiKey c d r lv { a with price := x } = apiKey c d r lv a := rfl

/-- A price-only update does not change the override-guard key. -/
theorem overrideKey_price_update (c d : Nat) (r : Option Nat) (a : PriceRow) (x : Rat) :
    overrideKey c d r { a with price := x } = overrideKey c d r a := rfl

/-- Rows with distinct commodities never share an api key. -/
theorem apiKey_false_of_ne {c1 c2 d : Nat} {r : Option Nat} {lv : String} {a : PriceRow}
    (hne : c1 ≠ c2) (ha : apiKey c2 d r lv a = true) : apiKey c1 d r lv a = false := by
  simp only [apiKey, Bool.and_eq_true, beq_iff_eq] at ha
  obtain ⟨⟨⟨⟨hc, _⟩, _⟩, _⟩, _⟩ := ha
  have h1 : (a.commodity_id == c1) = false := by
    rw [hc]
    exact beq_false_of_ne fun h => hne h.symm
  simp [apiKey, h1]

/-- Processing a settled snapshot leaves the table unchanged and performs
no update. -/
theorem processInfoCore_of_stable (cfg : SyncCfg) (rows : List PriceRow) (item : Snapshot)
    (h : Stable cfg rows item) :
    (processInfoCore cfg rows item).1 = rows
    ∧ (processInfoCore cfg rows item).2 ≠ SyncAction.updatedRow := by
  rw [processInfoCore_eq]
  rcases h with htoday | hres | ⟨c, hres, hrest⟩
  · rw [htoday]
    exact ⟨rfl, by simp⟩
  · rw [hres]
    cases htd : item.today <;> exact ⟨rfl, by simp⟩
  · rw [hres]
    cases htd : item.today with
    | none => exact ⟨rfl, by simp⟩
    | some t =>
      dsimp only
      rcases hrest with hov | ⟨t2, htd2, row, hfind, hprice⟩
      · rw [if_pos hov]
        exact ⟨rfl, by simp⟩
      · by_cases hov2 : rows.any (overrideKey c.id cfg.today cfg.regionId) = true
        · rw [if_pos hov2]
          exact ⟨rfl, by simp⟩
        · rw [if_neg hov2, hfind]
          dsimp only
          have ht2 : t2 = t := by
            rw [htd] at htd2
            exact (Option.some.inj htd2).symm
          rw [if_pos (by rw [hprice, ht2])]
          exact ⟨rfl, by simp⟩

/-- After a snapshot is processed once, it is settled with respect to the
resulting table. -/
theorem stable_after_process (cfg : SyncCfg) (rows : List PriceRow) (item : Snapshot) :
    Stable cfg (processInfoCore cfg rows item).1 item := by
  rw [processInfoCore_eq]
  cases htd : item.today with
  | none => exact Or.inl htd
  | some t =>
    cases hres : resolveCommodity cfg item with
    | none => exact Or.inr (Or.inl hres)
    | some c =>
      dsimp only
      by_cases hov : rows.any (overrideKey c.id cfg.today cfg.regionId) = true
      · rw [if_pos hov]
        exact Or.inr (Or.inr ⟨c, hres, Or.inl hov⟩)
      · rw [if_neg hov]
        cases hfind : rows.find? (apiKey c.id cfg.today cfg.regionId cfg.level) with
        | none =>
          refine Or.inr (Or.inr ⟨c, hres, Or.inr ⟨t, htd, ?_⟩⟩)
          refine ⟨⟨c.id, cfg.today, cfg.regionId, .api, cfg.level, t, false⟩, ?_, rfl⟩
          rw [find?_append_none hfind]
          simp [List.find?, apiKey]
        | some row =>
          dsimp only
          by_cases hpe : row.price = t
          · rw [if_pos hpe]
            exact Or.inr (Or.inr ⟨c, hres, Or.inr ⟨t, htd, row, hfind, hpe⟩⟩)
          · rw [if_neg hpe]
            refine Or.inr (Or.inr ⟨c, hres, Or.inr ⟨t, htd, ?_⟩⟩)
            refine ⟨{ row with price := t }, ?_, rfl⟩
            rw [find?_updateFirst_self (fun a ha => by
              rw [apiKey_price_update]
              exact ha), hfind]
            rfl

/-- Settledness of a snapshot survives the processing of a snapshot that
resolves to a different commodity (or does not write at all). -/
theorem stable_preserved (cfg : SyncCfg) (rows : List PriceRow) (item other : Snapshot)
    (hdisj : ∀ ci cj, resolveCommodity cfg item = some ci →
      resolveCommodity cfg other = some cj → ci.id ≠ cj.id)
    (h : Stable cfg rows item) :
    Stable cfg (processInfoCore cfg rows other).1 item := by
  rcases h with htoday | hres | ⟨c, hres, hrest⟩
  · exact Or.inl htoday
  · exact Or.inr (Or.inl hres)
  · refine Or.inr (Or.inr ⟨c, hres, ?_⟩)
    rw [processInfoCore_eq]
    cases htd2 : other.today with
    | none => exact hrest
    | some t2 =>
      cases hres2 : resolveCommodity cfg other with
      | none => exact hrest
      | some c2 =>
        have hne : c.id ≠ c2.id := hdisj c c2 hres hres2
        dsimp only
        by_cases hov2 : rows.any (overrideKey c2.id cfg.today cfg.regionId) = true
        · rw [if_pos hov2]
          exact hrest
        · rw [if_neg hov2]
          cases hfind2 : rows.find? (apiKey c2.id cfg.today cfg.regionId cfg.level) with
          | none =>
            rcases hrest with hov | ⟨t, htd, row, hfind, hprice⟩
            · refine Or.inl ?_
              rw [List.any_append]
              simp [hov]
            · exact Or.inr ⟨t, htd, row, find?_append_some hfind, hprice⟩
          | some row2 =>
            dsimp only
            by_cases hpe2 : row2.price = t2
            · rw [if_pos hpe2]
              exact hrest
            · rw [if_neg hpe2]
              rcases hrest with hov | ⟨t, htd, row, hfind, hprice⟩
              · refine Or.inl ?_
                rw [any_updateFirst (fun a _ => overrideKey_price_update c.id cfg.today
                  cfg.regionId a t2)]
                exact hov
              · refine Or.inr ⟨t, htd, row, ?_, hprice⟩
                rw [find?_updateFirst_disjoint (fun a _ hqa => ?_)]
                · exact hfind
                · refine ⟨apiKey_false_of_ne hne hqa, ?_⟩
                  rw [apiKey_price_update]
                  exact apiKey_false_of_ne hne hqa

/-- Settledness survives a whole tail of the run, provided every later
snapshot resolves to a different commodity. -/
theorem stable_foldl (cfg : SyncCfg) (item : Snapshot) :
    ∀ (l : List Snapshot) (st : SyncResult),
    (∀ j ∈ l, ∀ ci cj, resolveCommodity cfg item = some ci →
        resolveCommodity cfg j = some cj → ci.id ≠ cj.id) →
    Stable cfg st.rows item → Stable cfg ((l.foldl (step cfg) st).rows) item := by
  intro l
  induction l with
  | nil => intro st _ h; exact h
  | cons x xs ih =>
    intro st hdisj h
    rw [List.foldl_cons]
    refine ih (step cfg st x) (fun j hj => hdisj j (List.mem_cons_of_mem x hj)) ?_
    exact stable_preserved cfg st.rows item x (hdisj x (List.mem_cons_self x xs)) h

/-- What a successful commodity resolution tells us: the snapshot has a
(truthy) id, and the resolved record is a registry entry carrying that
external id. -/
theorem resolveCommodity_spec (cfg : SyncCfg) (item : Snapshot) (c : Commodity)
    (h : resolveCommodity cfg item = some c) :
    ∃ n, item.id = some n ∧ c ∈ cfg.commodities ∧ c.external_id = n := by
  unfold resolveCommodity at h
  cases hid : item.id with
  | none =>
    rw [hid] at h
    cases h
  | some n =>
    simp only [hid] at h
    by_cases h0 : (n == 0) = true
    · rw [if_pos h0] at h
      cases h
    · rw [if_neg h0] at h
      refine ⟨n, rfl, List.mem_of_find?_eq_some h, ?_⟩
      have hp := List.find?_some h
      simpa [beq_iff_eq] using hp

/-- After one full pass, every input snapshot is settled with respect to
the resulting table — given pairwise-distinct snapshot ids and a registry
with distinct internal ids. -/
theorem run_settles (cfg : SyncCfg)
    (hreg : (cfg.commodities.map (fun c => c.id)).Nodup) :
    ∀ (items : List Snapshot), (items.filterMap (fun it => it.id)).Nodup →
    ∀ (st : SyncResult) (i : Snapshot), i ∈ items →
    Stable cfg ((items.foldl (step cfg) st).rows) i := by
  intro items
  induction items with
  | nil =>
    intro _ st i hi
    cases hi
  | cons x xs ih =>
    intro hids st i hi
    rw [List.foldl_cons]
    rcases List.mem_cons.mp hi with rfl | hi2
    · refine stable_foldl cfg i xs (step cfg st i) ?_ ?_
      · intro j hj ci cj hci hcj
        obtain ⟨ni, hni, hmemi, hexti⟩ := resolveCommodity_spec cfg i ci hci
        obtain ⟨nj, hnj, hmemj, hextj⟩ := resolveCommodity_spec cfg j cj hcj
        have hfm : (List.filterMap (fun it => it.id) (i :: xs)).Nodup := hids
        rw [List.filterMap_cons, hni] at hfm
        have hnotin : ni ∉ xs.filterMap (fun it => it.id) := (List.nodup_cons.mp hfm).1
        have hinj : nj ∈ xs.filterMap (fun it => it.id) :=
          List.mem_filterMap.mpr ⟨j, hj, hnj⟩
        have hnn : ni ≠ nj := fun hcontra => hnotin (hcontra ▸ hinj)
        intro hideq
        have hcc : ci = cj := List.inj_on_of_nodup_map hreg hmemi hmemj hideq
        exact hnn (by rw [← hexti, ← hextj, hcc])
      · exact stable_after_process cfg st.rows i
    · refine ih ?_ (step cfg st x) i hi2
      have hfm : (List.filterMap (fun it => it.id) (x :: xs)).Nodup := hids
      rw [List.filterMap_cons] at hfm
      cases hxid : x.id with
      | none =>
        rw [hxid] at hfm
        exact hfm
      | some n =>
        rw [hxid] at hfm
        exact (List.nodup_cons.mp hfm).2

/-- Folding over snapshots all settled with respect to a fixed table
leaves the table unchanged and performs zero updates. -/
theorem foldl_of_stable (cfg : SyncCfg) :
    ∀ (l : List Snapshot) (R : List PriceRow) (u s : Nat),
    (∀ i ∈ l, Stable cfg R i) →
    (l.foldl (step cfg) ⟨R, u, s⟩).rows = R
    ∧ (l.foldl (step cfg) ⟨R, u, s⟩).updates = u := by
  intro l
  induction l with
  | nil =>
    intro R u s _
    exact ⟨rfl, rfl⟩
  | cons x xs ih =>
    intro R u s hall
    rw [List.foldl_cons]
    have hx := processInfoCore_of_stable cfg R x (hall x (List.mem_cons_self x xs))
    have hstep : step cfg ⟨R, u, s⟩ x
        = ⟨R, u, s + (if (processInfoCore cfg R x).2 = SyncAction.skipped then 0 else 1)⟩ := by
      unfold step
      dsimp only
      rw [hx.1, if_neg hx.2, Nat.add_zero]
    rw [hstep]
    exact ih R u (s + (if (processInfoCore cfg R x).2 = SyncAction.skipped then 0 else 1))
      (fun i hi => hall i (List.mem_cons_of_mem x hi))

/-- One iteration preserves uniqueness of the full price key. -/
theorem nodupkeys_step (cfg : SyncCfg) (rows : List PriceRow) (item : Snapshot)
    (h : (rows.map priceKey).Nodup) :
    (((processInfoCore cfg rows item).1).map priceKey).Nodup := by
  rw [processInfoCore_eq]
  cases htd : item.today with
  | none => exact h
  | some t =>
    cases hres : resolveCommodity cfg item with
    | none => exact h
    | some c =>
      dsimp only
      by_cases hov : rows.any (overrideKey c.id cfg.today cfg.regionId) = true
      · rw [if_pos hov]
        exact h
      · rw [if_neg hov]
        cases hfind : rows.find? (apiKey c.id cfg.today cfg.regionId cfg.level) with
        | none =>
          rw [List.map_append]
          rw [List.nodup_append]
          refine ⟨h, List.nodup_singleton _, ?_⟩
          intro k hk hk2
          simp only [List.map_cons, List.map_nil, List.mem_singleton] at hk2
          obtain ⟨r, hr, hkey⟩ := List.mem_map.mp hk
          rw [hk2] at hkey
          have hr_api : apiKey c.id cfg.today cfg.regionId cfg.level r = true := by
            simp only [priceKey, Prod.mk.injEq] at hkey
            obtain ⟨h1, h2, h3, h4, h5⟩ := hkey
            simp [apiKey, h1, h2, h3, h4, h5]
          have := List.find?_eq_none.mp hfind r hr
          exact this hr_api
        | some row =>
          dsimp only
          by_cases hpe : row.price = t
          · rw [if_pos hpe]
            exact h
          · rw [if_neg hpe]
            dsimp only
            have hm : (updateFirst (apiKey c.id cfg.today cfg.regionId cfg.level)
                (fun r => { r with price := t }) rows).map priceKey = rows.map priceKey :=
              map_updateFirst fun a _ _ => rfl
            rw [hm]
            exact h

/-- A whole run preserves uniqueness of the full price key. -/
theorem nodupkeys_run (cfg : SyncCfg) :
    ∀ (l : List Snapshot) (st : SyncResult), (st.rows.map priceKey).Nodup →
    (((l.foldl (step cfg) st).rows).map priceKey).Nodup := by
  intro l
  induction l with
  | nil =>
    intro st h
    exact h
  | cons x xs ih =>
    intro st h
    rw [List.foldl_cons]
    exact ih (step cfg st x) (nodupkeys_step cfg st.rows x h)

/-- C6 (amended): when the snapshot list carries pairwise-distinct
external ids and the commodity registry has distinct internal ids,
running `savePricesFromInformasi` twice in succession with the identical
snapshot list performs no update on the second pass and leaves the table
of the first pass unchanged; moreover a run preserves uniqueness of the
(commodity, date, region, source, level) key, so no duplicate rows are
produced.  (With duplicate snapshot ids in the list the second pass does
update: see the counterexample.) -/
theorem savePrices_idempotent_of_distinct_ids (cfg : SyncCfg) (items : List Snapshot)
    (rows0 : List PriceRow)
    (hids : (items.filterMap (fun it => it.id)).Nodup)
    (hreg : (cfg.commodities.map (fun c => c.id)).Nodup) :
    (savePricesFromInformasi cfg items
        (savePricesFromInformasi cfg items rows0).rows).rows
      = (savePricesFromInformasi cfg items rows0).rows
    ∧ (savePricesFromInformasi cfg items
        (savePricesFromInformasi cfg items rows0).rows).updates = 0
    ∧ ((rows0.map priceKey).Nodup →
        (((savePricesFromInformasi cfg items rows0).rows).map priceKey).Nodup) := by
  have hset : ∀ i ∈ items,
      Stable cfg ((savePricesFromInformasi cfg items rows0).rows) i :=
    fun i hi => run_settles cfg hreg items hids ⟨rows0, 0, 0⟩ i hi
  have h2 := foldl_of_stable cfg items (savePricesFromInformasi cfg items rows0).rows 0 0 hset
  exact ⟨h2.1, h2.2, fun hnd => nodupkeys_run cfg items ⟨rows0, 0, 0⟩ hnd⟩

/-- Closed witness for `savePrices_idempotent_of_distinct_ids`: two
snapshots with distinct ids — the second pass performs zero updates. -/
theorem savePrices_idempotent_of_distinct_ids_witness :
    (savePricesFromInformasi ⟨[⟨1, 7, "Beras"⟩, ⟨2, 8, "Telur"⟩], 0, none, "konsumen"⟩
        [⟨some 7, "Beras", some 12500, none⟩, ⟨some 8, "Telur", some 30000, none⟩]
        (savePricesFromInformasi ⟨[⟨1, 7, "Beras"⟩, ⟨2, 8, "Telur"⟩], 0, none, "konsumen"⟩
          [⟨some 7, "Beras", some 12500, none⟩, ⟨some 8, "Telur", some 30000, none⟩]
          []).rows).updates = 0 :=
  (savePrices_idempotent_of_distinct_ids
    ⟨[⟨1, 7, "Beras"⟩, ⟨2, 8, "Telur"⟩], 0, none, "konsumen"⟩
    [⟨some 7, "Beras", some 12500, none⟩, ⟨some 8, "Telur", some 30000, none⟩]
    [] (by decide) (by decide)).2.1

/-- C6 counterexample: with the identical snapshot list run twice but the
list containing two snapshots with the same external id and different
prices (200 then 300), the second pass performs 2 in-place updates — the
run is not idempotent as stated. -/
theorem savePrices_second_pass_updates_on_duplicate_ids :
    (savePricesFromInformasi ⟨[⟨1, 7, "Beras"⟩], 0, none, "konsumen"⟩
        [⟨some 7, "Beras", some 200, none⟩, ⟨some 7, "Beras", some 300, none⟩]
        (savePricesFromInformasi ⟨[⟨1, 7, "Beras"⟩], 0, none, "konsumen"⟩
          [⟨some 7, "Beras", some 200, none⟩, ⟨some 7, "Beras", some 300, none⟩]
          []).rows).updates = 2
    ∧ (2 : Nat) ≠ 0 := by
  constructor
  · with_unfolding_all rfl
  · decide

end PriceSync

end PantauPangan
